import Mathlib

/- Verification of the libprogbase event system (src/events/events.c).

   The embedding is a shallow one: handlers are identified by numeric ids and
   their reference-counted records live in an explicit heap; events are
   records with a numeric id (standing for the allocated record), a type tag,
   a payload and a flag telling whether a destructor was supplied.  Every
   observable effect of the C code — a handler callback invocation, an event
   payload destructor call, an event record free, a handler reference
   release, a handler payload destructor call, a handler record free — is
   logged in a trace field of the system state.  Handler callbacks are
   modelled as arbitrary functions from (own id, event, current state) to the
   list of API calls they perform, which captures the reentrancy of the C
   code (callbacks may add or remove handlers, emit events and request loop
   termination while a broadcast is in progress). -/

/-- Public lifecycle tag from progbase/events.h.  The header is not under
src/; modelled from the spec: three distinct public lifecycle tags
(`Start`, `Update`, `Exit`).  Only distinctness matters below. -/
def StartEventTypeId : Int := 0

/-- Public lifecycle tag for per-frame update events (header, see above). -/
def UpdateEventTypeId : Int := 1

/-- Public lifecycle tag for the exit event (header, see above). -/
def ExitEventTypeId : Int := 2

/-- Internal control tag, events.c line 133: `ExitEventTypeId + 1`. -/
def RemoveHandlerEventTypeId : Int := ExitEventTypeId + 1

/-- Internal control tag, events.c line 134: next enumerator value. -/
def BreakLoopEventTypeId : Int := RemoveHandlerEventTypeId + 1

/-- Payload of an event (`event->data`).  `none` is a NULL pointer,
`handlerRef hid` is a pointer to the handler record `hid` (the payload of
the internal remove-handler events), `dataPtr` is any other non-null opaque
pointer (user payloads, and the update event's pointer to a stack local). -/
inductive EvPayload
  | none
  | handlerRef (hid : Nat)
  | dataPtr
  deriving DecidableEq

/-- An Event record (struct Event): `id` stands for the allocated record
identity, the other fields mirror `sender`, `type`, `data`, `destructor`
(`hasDest` tells whether a destructor function was supplied). -/
structure Ev where
  id : Nat
  sender : Option Nat
  type : Int
  payload : EvPayload
  hasDest : Bool
  deriving DecidableEq

/-- Observable actions logged by the embedding. -/
inductive Act
  | invoke (hid : Nat) (eid : Nat) (ty : Int)
  | evDestructor (eid : Nat)
  | evFree (eid : Nat)
  | hDecref (hid : Nat)
  | hDestructor (hid : Nat)
  | hFree (hid : Nat)
  deriving DecidableEq

/-- A live EventHandler record: reference count plus whether `data` and
`destructor` are non-null.  A record absent from the heap is freed. -/
structure HRec where
  refCount : Int
  hasData : Bool
  hasDest : Bool
  deriving DecidableEq

/-- State of the event system: the `handlers` List (ids, insertion order),
the `events` Queue (head = next to dequeue), the heap of live handler
records, the id source for events allocated by the system itself, and the
trace of observable actions so far. -/
structure SysState where
  handlers : List Nat
  events : List Ev
  heap : List (Nat × HRec)
  nextEv : Nat
  trace : List Act
  deriving DecidableEq

/-- Result of `EventSystem_handleEvent` (events.c lines 44-47). -/
inductive EventSystemAction
  | cont
  | exit
  deriving DecidableEq

/-- Count the occurrences of an action in a trace. -/
def countAct (a : Act) (tr : List Act) : Nat :=
  (tr.filter (fun b => b == a)).length

/-- Look a handler record up in the heap. -/
def heapGet (heap : List (Nat × HRec)) (hid : Nat) : Option HRec :=
  match heap.find? (fun p => p.1 == hid) with
  | some p => some p.2
  | Option.none => Option.none

/-- Replace a handler record in the heap. -/
def heapSet (heap : List (Nat × HRec)) (hid : Nat) (r : HRec) : List (Nat × HRec) :=
  heap.map (fun p => if p.1 == hid then (p.1, r) else p)

/-- Remove a handler record from the heap (the record is freed). -/
def heapErase (heap : List (Nat × HRec)) (hid : Nat) : List (Nat × HRec) :=
  heap.filter (fun p => ! (p.1 == hid))

/-- EventHandler_new (events.c lines 67-75): asserts (fatally) that non-null
data comes with a non-null destructor, then returns a record with reference
count 1.  The fatal assert is modelled as `Option.none`. -/
def EventHandler_new (hasData hasDest : Bool) : Option HRec :=
  if hasData && !hasDest then Option.none
  else some { refCount := 1, hasData := hasData, hasDest := hasDest }

/-- EventHandler_incref (events.c lines 77-79): `self->_refCount++`.
An incref through a dangling pointer (record already freed) is undefined
behaviour in the C; the model leaves the state unchanged there. -/
def EventHandler_incref (hid : Nat) (s : SysState) : SysState :=
  match heapGet s.heap hid with
  | some r => { s with heap := heapSet s.heap hid { r with refCount := r.refCount + 1 } }
  | Option.none => s

/-- EventHandler_decref (events.c lines 81-90): decrement; at zero run the
payload destructor (if `destructor != NULL && data != NULL`) and free the
record.  A decref through a dangling pointer is undefined behaviour in the
C; the model only logs the release. -/
def EventHandler_decref (hid : Nat) (s : SysState) : SysState :=
  match heapGet s.heap hid with
  | some r =>
    if r.refCount - 1 = 0 then
      { s with heap := heapErase s.heap hid,
               trace := s.trace ++ [Act.hDecref hid]
                 ++ (if r.hasDest && r.hasData then [Act.hDestructor hid] else [])
                 ++ [Act.hFree hid] }
    else
      { s with heap := heapSet s.heap hid { r with refCount := r.refCount - 1 },
               trace := s.trace ++ [Act.hDecref hid] }
  | Option.none => { s with trace := s.trace ++ [Act.hDecref hid] }

/-- Event_new (events.c lines 16-23): build an event record. -/
def Event_new (eid : Nat) (sender : Option Nat) (ty : Int) (p : EvPayload) (hd : Bool) : Ev :=
  { id := eid, sender := sender, type := ty, payload := p, hasDest := hd }

/-- Event_free (events.c lines 25-32): run the payload destructor if
`destructor != NULL && data != NULL`, then free the record. -/
def Event_free (ev : Ev) (s : SysState) : SysState :=
  { s with trace := s.trace
      ++ (if ev.hasDest && !(ev.payload == EvPayload.none) then [Act.evDestructor ev.id] else [])
      ++ [Act.evFree ev.id] }

/-- EventSystem_addHandler (events.c lines 151-153): `List_add` appends the
handler at the end of the handlers sequence. -/
def EventSystem_addHandler (hid : Nat) (s : SysState) : SysState :=
  { s with handlers := s.handlers ++ [hid] }

/-- EventSystem_raiseEvent (events.c lines 159-161): `Queue_enqueue` at the
tail of the pending event queue. -/
def EventSystem_raiseEvent (ev : Ev) (s : SysState) : SysState :=
  { s with events := s.events ++ [ev] }

/-- EventSystem_emit (events.c lines 163-165): `Queue_enqueue` at the tail
of the pending event queue. -/
def EventSystem_emit (ev : Ev) (s : SysState) : SysState :=
  { s with events := s.events ++ [ev] }

/-- The composite `EventSystem_emit(Event_new(NULL, ty, data, dest))` used
throughout events.c; the fresh record identity comes from the allocation
counter. -/
def EventSystem_emitNew (ty : Int) (p : EvPayload) (hd : Bool) (s : SysState) : SysState :=
  EventSystem_emit (Event_new s.nextEv Option.none ty p hd) { s with nextEv := s.nextEv + 1 }

/-- EventSystem_removeHandler (events.c lines 155-157): only emits an
internal remove-handler event carrying the handler; no direct mutation. -/
def EventSystem_removeHandler (hid : Nat) (s : SysState) : SysState :=
  EventSystem_emitNew RemoveHandlerEventTypeId (EvPayload.handlerRef hid) false s

/-- EventSystem_exit (events.c lines 221-223): emits a break-loop event. -/
def EventSystem_exit (s : SysState) : SysState :=
  EventSystem_emitNew BreakLoopEventTypeId EvPayload.none false s

/-- EventSystem_handleEvent (events.c lines 137-149): break-loop yields the
exit action; a remove-handler event removes the referenced handler from the
sequence (`List_remove`, by identity) and releases one reference, provided
the payload is not NULL.  Everything else just continues.  (A remove-handler
event whose data points to something that is not a handler record would be
undefined behaviour in the C and is left as the identity here; the library
itself only creates such events with a handler payload.) -/
def EventSystem_handleEvent (ev : Ev) (s : SysState) : EventSystemAction × SysState :=
  if ev.type = BreakLoopEventTypeId then
    (EventSystemAction.exit, s)
  else if ev.type = RemoveHandlerEventTypeId then
    match ev.payload with
    | EvPayload.handlerRef hid =>
        (EventSystemAction.cont,
          EventHandler_decref hid { s with handlers := s.handlers.erase hid })
    | _ => (EventSystemAction.cont, s)
  else (EventSystemAction.cont, s)

/-- An API call a handler callback can make while it runs. -/
inductive Cmd
  | addHandler (hid : Nat)
  | removeHandler (hid : Nat)
  | emit (ty : Int) (p : EvPayload) (hd : Bool)
  | exit
  deriving DecidableEq

/-- Behaviour of the handler callbacks: given the invoked handler's id, the
event and the state at invocation time, the list of API calls the callback
performs, in order. -/
def Env : Type := Nat → Ev → SysState → List Cmd

/-- Apply one API call made by a callback. -/
def applyCmd (s : SysState) (c : Cmd) : SysState :=
  match c with
  | Cmd.addHandler hid => EventSystem_addHandler hid s
  | Cmd.removeHandler hid => EventSystem_removeHandler hid s
  | Cmd.emit ty p hd => EventSystem_emitNew ty p hd s
  | Cmd.exit => EventSystem_exit s

/-- Apply the API calls made by a callback, in order. -/
def applyCmds (cs : List Cmd) (s : SysState) : SysState :=
  cs.foldl applyCmd s

/-- The broadcast loop of EventSystem_loop (events.c lines 205-210) together
with EventHandlerEnumerator_getNextHandler (lines 116-119): an index cursor
over the live handlers List, re-reading `List_count` at every step; each
yielded handler's callback is invoked with the event and may mutate the
system.  Fuelled; `Option.none` means the fuel ran out. -/
def broadcastAux (env : Env) (ev : Ev) : Nat → Nat → SysState → Option SysState
  | 0, _, _ => Option.none
  | fuel + 1, i, s =>
    if h : i < s.handlers.length then
      let hid := s.handlers.get ⟨i, h⟩
      let s1 : SysState := { s with trace := s.trace ++ [Act.invoke hid ev.id ev.type] }
      broadcastAux env ev fuel (i + 1) (applyCmds (env hid ev s1) s1)
    else some s

/-- The body of the drain loop (events.c lines 200-212) for one dequeued
event: internal handling first; on the exit action clear the running flag
and emit an exit event (no broadcast); otherwise broadcast to the handlers;
in both cases free the event.  Returns the new state and running flag. -/
def processEvent (env : Env) (bfuel : Nat) (ev : Ev) (running : Bool) (s : SysState) :
    Option (SysState × Bool) :=
  match EventSystem_handleEvent ev s with
  | (a, s1) =>
    if a = EventSystemAction.exit then
      some (Event_free ev (EventSystem_emitNew ExitEventTypeId EvPayload.none false s1), false)
    else
      match broadcastAux env ev bfuel 0 s1 with
      | Option.none => Option.none
      | some s2 => some (Event_free ev s2, running)

/-- The drain loop of EventSystem_loop (events.c lines 199-213):
repeatedly `EventSystem_getNextEvent` (dequeue, lines 121-124) and process,
until the queue is empty.  Fuelled on the number of dequeues. -/
def drainAux (env : Env) (bfuel : Nat) : Nat → Bool → SysState → Option (SysState × Bool)
  | 0, running, s => if s.events.isEmpty then some (s, running) else Option.none
  | fuel + 1, running, s =>
    match s.events with
    | [] => some (s, running)
    | ev :: rest =>
      match processEvent env bfuel ev running { s with events := rest } with
      | Option.none => Option.none
      | some (s', running') => drainAux env bfuel fuel running' s'

/-- EventSystem_cleanup (events.c lines 172-183): dequeue and free every
pending event, destroy the queue, release one reference from every handler
still in the sequence, destroy the sequence. -/
def EventSystem_cleanup (s : SysState) : SysState :=
  let s1 := s.events.foldl (fun acc ev => Event_free ev acc) { s with events := [] }
  let s2 := s1.handlers.foldl (fun acc hid => EventHandler_decref hid acc) s1
  { s2 with handlers := [] }

/-- EventSystem_init (events.c lines 167-170): empty containers. -/
def EventSystem_init : SysState :=
  { handlers := [], events := [], heap := [], nextEv := 0, trace := [] }

/-- Frames-per-second constant of EventSystem_loop (events.c line 186). -/
def FPS : Int := 30

/-- Per-frame budget, events.c line 187: `1000 / FPS` — this is C INTEGER
division (both operands are int), so the double it initialises is exactly
33, not 1000/30 in real arithmetic. -/
def millisPerFrame : ℚ := ((1000 / FPS : Int) : ℚ)

/-- The frame pacing decision of events.c lines 215-216: when the measured
frame time is under the budget, request a sleep of exactly the remainder
(`sleepMillis(millisPerFrame - millis)`); otherwise request none. -/
def framePace (millis : ℚ) : Option ℚ :=
  if millis < millisPerFrame then some (millisPerFrame - millis) else Option.none

/-- Clock_diffMillis of the clock collaborator: millisecond difference. -/
def Clock_diffMillis (a b : ℚ) : ℚ := a - b

/-- State of one run of EventSystem_loop: the system state, the `isRunning`
flag, the index of the next clock reading, `lastTicks`, and the list of
sleep requests issued so far. -/
structure LoopState where
  sys : SysState
  running : Bool
  clockIdx : Nat
  lastTicks : ℚ
  sleeps : List ℚ
  deriving DecidableEq

/-- One `while (isRunning)` iteration of EventSystem_loop (events.c lines
193-218), fuelled on the number of frames: read the clock, emit an update
event (its payload is a pointer to the stack-local elapsed-milliseconds
value, with no destructor — modelled as an opaque data pointer), drain the
queue, then pace the frame and loop.  `clock` is the stream of Clock_now
readings. -/
def loopAux (env : Env) (clock : Nat → ℚ) (bfuel dfuel : Nat) :
    Nat → LoopState → Option LoopState
  | 0, ls => if ls.running then Option.none else some ls
  | n + 1, ls =>
    if ls.running then
      let current := clock ls.clockIdx
      let s1 := EventSystem_emitNew UpdateEventTypeId EvPayload.dataPtr false ls.sys
      match drainAux env bfuel dfuel ls.running s1 with
      | Option.none => Option.none
      | some (s2, running') =>
        let millis := Clock_diffMillis (clock (ls.clockIdx + 1)) current
        loopAux env clock bfuel dfuel n
          { sys := s2, running := running', clockIdx := ls.clockIdx + 2,
            lastTicks := current,
            sleeps := ls.sleeps ++ (match framePace millis with
              | some d => [d]
              | Option.none => []) }
    else some ls

/-- EventSystem_loop (events.c lines 185-219): emit a start event, read the
initial `lastTicks`, then run the frame loop. -/
def EventSystem_loop (env : Env) (clock : Nat → ℚ) (bfuel dfuel frames : Nat)
    (s : SysState) : Option LoopState :=
  let s1 := EventSystem_emitNew StartEventTypeId EvPayload.none false s
  loopAux env clock bfuel dfuel frames
    { sys := s1, running := true, clockIdx := 1, lastTicks := clock 0, sleeps := [] }

/-- The invocations a trace records, in order: (handler id, event type). -/
def invokesOf (tr : List Act) : List (Nat × Int) :=
  tr.filterMap (fun a => match a with
    | Act.invoke h _ ty => some (h, ty)
    | _ => Option.none)

/-- Register a list of handlers in order (a sequence of addHandler calls). -/
def registerAll (hs : List Nat) (s : SysState) : SysState :=
  hs.foldl (fun acc hid => EventSystem_addHandler hid acc) s

/-- The callback environment in which no callback performs any API call. -/
def env0 : Env := fun _ _ _ => []

/-- Callback environment used by the reentrancy witness: handler 1 appends
handler 9 while it is being invoked. -/
def env1 : Env := fun hid _ _ => if hid = 1 then [Cmd.addHandler 9] else []

/-- Count, in a trace, the callback invocations carrying a given event
type. -/
def countInvokesOfType (ty : Int) (tr : List Act) : Nat :=
  (tr.filter (fun a => match a with
    | Act.invoke _ _ t => t == ty
    | _ => false)).length

/-- The trace chunk Event_free appends for one event. -/
def evChunk (ev : Ev) : List Act :=
  (if ev.hasDest && !(ev.payload == EvPayload.none) then [Act.evDestructor ev.id] else [])
    ++ [Act.evFree ev.id]

/-- Iterate EventHandler_incref (retain) n times. -/
def increfIter (hid : Nat) : Nat → SysState → SysState
  | 0, s => s
  | n + 1, s => increfIter hid n (EventHandler_incref hid s)

/-- Iterate EventHandler_decref (release) n times. -/
def decrefIter (hid : Nat) : Nat → SysState → SysState
  | 0, s => s
  | n + 1, s => decrefIter hid n (EventHandler_decref hid s)

/-- A system state with one registered handler (id 0) and a queue holding k
break-loop control events (k prior calls to EventSystem_exit). -/
def breakQueueState (k : Nat) : SysState :=
  { handlers := [0],
    events := (List.range k).map
      (fun i => Event_new i Option.none BreakLoopEventTypeId EvPayload.none false),
    heap := [], nextEv := k, trace := [] }

/- Concrete scenario states used by counterexamples and witnesses. -/

/-- One user handler (id 5) registered; a remove-handler event for an
unrelated handler 7 is pending. -/
def c1S : SysState := { handlers := [5], events := [], heap := [], nextEv := 1, trace := [] }

/-- The remove-handler control event carrying handler 7. -/
def c1Ev : Ev := Event_new 0 Option.none RemoveHandlerEventTypeId (EvPayload.handlerRef 7) false

/-- Result of processing `c1Ev` in `c1S`. -/
def c1Res : SysState :=
  { handlers := [5], events := [], heap := [], nextEv := 1,
    trace := [Act.hDecref 7, Act.invoke 5 0 RemoveHandlerEventTypeId, Act.evFree 0] }

/-- Handler 0 has reference count 2 (created, then retained once); it is
registered, and removeHandler(0) was requested twice: two remove-handler
events are pending. -/
def c2S : SysState :=
  { handlers := [0],
    events := [Event_new 0 Option.none RemoveHandlerEventTypeId (EvPayload.handlerRef 0) false,
               Event_new 1 Option.none RemoveHandlerEventTypeId (EvPayload.handlerRef 0) false],
    heap := [(0, { refCount := 2, hasData := false, hasDest := false })],
    nextEv := 2, trace := [] }

/-- Final state of draining `c2S`. -/
def c2Res : SysState :=
  { handlers := [], events := [], heap := [], nextEv := 2,
    trace := [Act.hDecref 0, Act.evFree 0, Act.hDecref 0, Act.hFree 0, Act.evFree 1] }

/-- The state just before the SECOND remove request for handler 0 is
processed: the handler is already absent from the sequence and holds one
remaining reference. -/
def c2Mid : SysState :=
  { handlers := [], events := [],
    heap := [(0, { refCount := 1, hasData := false, hasDest := false })],
    nextEv := 2, trace := [] }

/-- The second pending remove-handler event for handler 0. -/
def c2MidEv : Ev := Event_new 1 Option.none RemoveHandlerEventTypeId (EvPayload.handlerRef 0) false

/-- Result of processing the second remove request. -/
def c2MidRes : SysState :=
  { handlers := [], events := [], heap := [], nextEv := 2,
    trace := [Act.hDecref 0, Act.hFree 0, Act.evFree 1] }

/-- A user event with non-null data and non-null destructor. -/
def c3Ev : Ev := Event_new 0 Option.none 9 EvPayload.dataPtr true

/-- Empty system about to process `c3Ev`. -/
def c3S : SysState := { handlers := [], events := [], heap := [], nextEv := 1, trace := [] }

/-- Result of processing `c3Ev` in `c3S`. -/
def c3Res : SysState :=
  { handlers := [], events := [], heap := [], nextEv := 1,
    trace := [Act.evDestructor 0, Act.evFree 0] }

/-- System shut down with `c3Ev` still pending (never dispatched). -/
def c3CleanS : SysState := { handlers := [], events := [c3Ev], heap := [], nextEv := 1, trace := [] }

/-- One registered handler (id 0, refcount 1), empty queue. -/
def c4Start : SysState :=
  { handlers := [0], events := [],
    heap := [(0, { refCount := 1, hasData := false, hasDest := false })],
    nextEv := 0, trace := [] }

/-- A user broadcast event (type 7) used by the dispatch-order witness. -/
def c8Ev : Ev := Event_new 9 Option.none 7 EvPayload.none false

/-- Result of broadcasting `c8Ev` after registering handlers 1 then 2. -/
def c8Res : SysState :=
  { handlers := [1, 2], events := [], heap := [], nextEv := 0,
    trace := [Act.invoke 1 9 7, Act.invoke 2 9 7] }

/-- A user broadcast event (type 9) used by the reentrancy witness. -/
def c9Ev : Ev := Event_new 7 Option.none 9 EvPayload.none false

/-- Two handlers registered before the broadcast of `c9Ev`. -/
def c9S : SysState := { handlers := [1, 2], events := [], heap := [], nextEv := 0, trace := [] }

/-- Result of broadcasting `c9Ev` under `env1`: handler 9, appended by
handler 1's callback mid-broadcast, is invoked in the same broadcast. -/
def c9Res : SysState :=
  { handlers := [1, 2, 9], events := [], heap := [], nextEv := 0,
    trace := [Act.invoke 1 7 9, Act.invoke 2 7 9, Act.invoke 9 7 9] }

/- Helper lemmas. -/

theorem countAct_nil (a : Act) : countAct a [] = 0 := rfl

theorem countAct_cons (a b : Act) (l : List Act) :
    countAct a (b :: l) = (if b = a then 1 else 0) + countAct a l := by
  by_cases hb : b = a <;> simp [countAct, List.filter_cons, hb, Nat.add_comm]

theorem countAct_append (a : Act) (l m : List Act) :
    countAct a (l ++ m) = countAct a l + countAct a m := by
  simp [countAct, List.filter_append]

theorem countAct_zero (a : Act) (l : List Act) (h : ∀ b ∈ l, b ≠ a) : countAct a l = 0 := by
  induction l with
  | nil => rfl
  | cons b t ih =>
    rw [countAct_cons, if_neg (h b (List.mem_cons_self b t)), ih fun x hx => h x (List.mem_cons_of_mem b hx)]

theorem emitNew_handlers (ty : Int) (p : EvPayload) (hd : Bool) (s : SysState) :
    (EventSystem_emitNew ty p hd s).handlers = s.handlers := rfl

theorem emitNew_trace (ty : Int) (p : EvPayload) (hd : Bool) (s : SysState) :
    (EventSystem_emitNew ty p hd s).trace = s.trace := rfl

theorem Event_free_trace (ev : Ev) (s : SysState) :
    (Event_free ev s).trace = s.trace ++ evChunk ev := by
  simp [Event_free, evChunk]

theorem Event_free_handlers (ev : Ev) (s : SysState) :
    (Event_free ev s).handlers = s.handlers := rfl

theorem EventHandler_decref_eq_dangling (hid : Nat) (s : SysState)
    (h : heapGet s.heap hid = Option.none) :
    EventHandler_decref hid s = { s with trace := s.trace ++ [Act.hDecref hid] } := by
  unfold EventHandler_decref
  rw [h]

theorem EventHandler_decref_eq_free (hid : Nat) (s : SysState) (r : HRec)
    (h : heapGet s.heap hid = some r) (hc : r.refCount - 1 = 0) :
    EventHandler_decref hid s
      = { s with heap := heapErase s.heap hid,
                 trace := s.trace ++ [Act.hDecref hid]
                   ++ (if r.hasDest && r.hasData then [Act.hDestructor hid] else [])
                   ++ [Act.hFree hid] } := by
  unfold EventHandler_decref
  rw [h]
  exact if_pos hc

theorem EventHandler_decref_eq_live (hid : Nat) (s : SysState) (r : HRec)
    (h : heapGet s.heap hid = some r) (hc : ¬ r.refCount - 1 = 0) :
    EventHandler_decref hid s
      = { s with heap := heapSet s.heap hid { r with refCount := r.refCount - 1 },
                 trace := s.trace ++ [Act.hDecref hid] } := by
  unfold EventHandler_decref
  rw [h]
  exact if_neg hc

theorem decref_effects (hid : Nat) (s : SysState) :
    (EventHandler_decref hid s).handlers = s.handlers ∧
    (EventHandler_decref hid s).events = s.events ∧
    (EventHandler_decref hid s).nextEv = s.nextEv ∧
    ∃ d, (EventHandler_decref hid s).trace = s.trace ++ d ∧
      countAct (Act.hDecref hid) d = 1 ∧
      (∀ a ∈ d, a = Act.hDecref hid ∨ a = Act.hDestructor hid ∨ a = Act.hFree hid) := by
  cases h : heapGet s.heap hid with
  | none =>
    rw [EventHandler_decref_eq_dangling hid s h]
    exact ⟨rfl, rfl, rfl, [Act.hDecref hid], rfl, by simp [countAct_cons, countAct_nil], by simp⟩
  | some r =>
    by_cases hc : r.refCount - 1 = 0
    · rw [EventHandler_decref_eq_free hid s r h hc]
      by_cases hd : (r.hasDest && r.hasData) = true
      · refine ⟨rfl, rfl, rfl,
          [Act.hDecref hid] ++ [Act.hDestructor hid] ++ [Act.hFree hid], ?_,
          by simp [countAct_append, countAct_cons, countAct_nil], by simp⟩
        simp [hd]
      · refine ⟨rfl, rfl, rfl, [Act.hDecref hid] ++ [Act.hFree hid], ?_,
          by simp [countAct_append, countAct_cons, countAct_nil], by simp⟩
        simp [hd]
    · rw [EventHandler_decref_eq_live hid s r h hc]
      exact ⟨rfl, rfl, rfl, [Act.hDecref hid], rfl, by simp [countAct_cons, countAct_nil], by simp⟩

theorem handleEvent_break (ev : Ev) (s : SysState) (h : ev.type = BreakLoopEventTypeId) :
    EventSystem_handleEvent ev s = (EventSystemAction.exit, s) := by
  simp [EventSystem_handleEvent, h]

theorem handleEvent_remove (ev : Ev) (s : SysState) (hid : Nat)
    (h1 : ev.type = RemoveHandlerEventTypeId) (h2 : ev.payload = EvPayload.handlerRef hid) :
    EventSystem_handleEvent ev s
      = (EventSystemAction.cont,
         EventHandler_decref hid { s with handlers := s.handlers.erase hid }) := by
  have hne : ¬ RemoveHandlerEventTypeId = BreakLoopEventTypeId := by decide
  simp [EventSystem_handleEvent, hne, h1, h2]

theorem handleEvent_other (ev : Ev) (s : SysState)
    (h1 : ev.type ≠ BreakLoopEventTypeId) (h2 : ev.type ≠ RemoveHandlerEventTypeId) :
    EventSystem_handleEvent ev s = (EventSystemAction.cont, s) := by
  simp [EventSystem_handleEvent, h1, h2]

theorem handleEvent_effects (ev : Ev) (s : SysState) :
    ((EventSystem_handleEvent ev s).2).events = s.events ∧
    ((EventSystem_handleEvent ev s).2).nextEv = s.nextEv ∧
    ∃ d, ((EventSystem_handleEvent ev s).2).trace = s.trace ++ d ∧
      (∀ a ∈ d, ∃ x, a = Act.hDecref x ∨ a = Act.hDestructor x ∨ a = Act.hFree x) := by
  by_cases hb : ev.type = BreakLoopEventTypeId
  · rw [handleEvent_break ev s hb]
    exact ⟨rfl, rfl, [], by simp, by simp⟩
  · by_cases hr : ev.type = RemoveHandlerEventTypeId
    · cases hp : ev.payload with
      | handlerRef hid =>
        rw [handleEvent_remove ev s hid hr hp]
        obtain ⟨-, he, hn, d, htr, -, hmem⟩ :=
          decref_effects hid { s with handlers := s.handlers.erase hid }
        exact ⟨he, hn, d, htr, fun a ha => by
          rcases hmem a ha with h | h | h
          · exact ⟨hid, Or.inl h⟩
          · exact ⟨hid, Or.inr (Or.inl h)⟩
          · exact ⟨hid, Or.inr (Or.inr h)⟩⟩
      | none =>
        have hne : ¬ RemoveHandlerEventTypeId = BreakLoopEventTypeId := by decide
        simp only [EventSystem_handleEvent, hne, hr, hp, if_false, if_neg, ite_false]
        exact ⟨rfl, rfl, [], by simp, by simp⟩
      | dataPtr =>
        have hne : ¬ RemoveHandlerEventTypeId = BreakLoopEventTypeId := by decide
        simp only [EventSystem_handleEvent, hne, hr, hp, if_false, if_neg, ite_false]
        exact ⟨rfl, rfl, [], by simp, by simp⟩
    · rw [handleEvent_other ev s hb hr]
      exact ⟨rfl, rfl, [], by simp, by simp⟩

theorem handleEvent_ev_counts (ev : Ev) (s : SysState) (eid : Nat) :
    countAct (Act.evFree eid) ((EventSystem_handleEvent ev s).2).trace
      = countAct (Act.evFree eid) s.trace ∧
    countAct (Act.evDestructor eid) ((EventSystem_handleEvent ev s).2).trace
      = countAct (Act.evDestructor eid) s.trace := by
  obtain ⟨-, -, d, htr, hmem⟩ := handleEvent_effects ev s
  rw [htr, countAct_append, countAct_append]
  constructor
  · rw [countAct_zero (Act.evFree eid) d (fun b hb => by
      rcases hmem b hb with ⟨x, h | h | h⟩ <;> subst h <;> simp)]
    omega
  · rw [countAct_zero (Act.evDestructor eid) d (fun b hb => by
      rcases hmem b hb with ⟨x, h | h | h⟩ <;> subst h <;> simp)]
    omega


theorem applyCmd_handlers (s : SysState) (c : Cmd) :
    ∃ l, (applyCmd s c).handlers = s.handlers ++ l := by
  cases c with
  | addHandler hid => exact ⟨[hid], rfl⟩
  | removeHandler hid => exact ⟨[], by simp [applyCmd, EventSystem_removeHandler,
      EventSystem_emitNew, EventSystem_emit]⟩
  | emit ty p hd => exact ⟨[], by simp [applyCmd, EventSystem_emitNew, EventSystem_emit]⟩
  | exit => exact ⟨[], by simp [applyCmd, EventSystem_exit,
      EventSystem_emitNew, EventSystem_emit]⟩

theorem applyCmd_trace (s : SysState) (c : Cmd) : (applyCmd s c).trace = s.trace := by
  cases c <;> rfl

theorem applyCmds_handlers (cs : List Cmd) : ∀ s : SysState,
    ∃ l, (applyCmds cs s).handlers = s.handlers ++ l := by
  induction cs with
  | nil => exact fun s => ⟨[], by simp [applyCmds]⟩
  | cons c cs ih =>
    intro s
    obtain ⟨l1, h1⟩ := applyCmd_handlers s c
    obtain ⟨l2, h2⟩ := ih (applyCmd s c)
    exact ⟨l1 ++ l2, by
      show (applyCmds cs (applyCmd s c)).handlers = _
      rw [h2, h1, List.append_assoc]⟩

theorem applyCmds_trace (cs : List Cmd) : ∀ s : SysState, (applyCmds cs s).trace = s.trace := by
  induction cs with
  | nil => exact fun s => rfl
  | cons c cs ih =>
    intro s
    show (applyCmds cs (applyCmd s c)).trace = _
    rw [ih (applyCmd s c), applyCmd_trace]

theorem applyCmd_handlers_no_add (s : SysState) (c : Cmd) (h : ∀ x, c ≠ Cmd.addHandler x) :
    (applyCmd s c).handlers = s.handlers := by
  cases c with
  | addHandler hid => exact absurd rfl (h hid)
  | removeHandler hid => simp [applyCmd, EventSystem_removeHandler,
      EventSystem_emitNew, EventSystem_emit]
  | emit ty p hd => simp [applyCmd, EventSystem_emitNew, EventSystem_emit]
  | exit => simp [applyCmd, EventSystem_exit, EventSystem_emitNew, EventSystem_emit]

theorem applyCmds_handlers_no_add (cs : List Cmd) : ∀ s : SysState,
    (∀ c ∈ cs, ∀ x, c ≠ Cmd.addHandler x) → (applyCmds cs s).handlers = s.handlers := by
  induction cs with
  | nil => exact fun s _ => rfl
  | cons c cs ih =>
    intro s h
    show (applyCmds cs (applyCmd s c)).handlers = _
    rw [ih (applyCmd s c) (fun x hx => h x (List.mem_cons_of_mem c hx)),
        applyCmd_handlers_no_add s c (h c (List.mem_cons_self c cs))]

theorem broadcastAux_spec (env : Env) (ev : Ev) :
    ∀ (fuel i : Nat) (s s' : SysState), broadcastAux env ev fuel i s = some s' →
      (∃ ext, s'.handlers = s.handlers ++ ext) ∧
      s'.trace = s.trace
        ++ (s'.handlers.drop i).map (fun h => Act.invoke h ev.id ev.type) := by
  intro fuel
  induction fuel with
  | zero => intro i s s' hb; simp [broadcastAux] at hb
  | succ f ih =>
    intro i s s' hb
    rw [broadcastAux] at hb
    by_cases h : i < s.handlers.length
    · rw [dif_pos h] at hb
      obtain ⟨⟨ext2, hh2⟩, htr2⟩ := ih (i + 1) _ s' hb
      obtain ⟨l1, hl1⟩ := applyCmds_handlers
        (env (s.handlers.get ⟨i, h⟩) ev
          { s with trace := s.trace ++ [Act.invoke (s.handlers.get ⟨i, h⟩) ev.id ev.type] })
        { s with trace := s.trace ++ [Act.invoke (s.handlers.get ⟨i, h⟩) ev.id ev.type] }
      have hh : s'.handlers = s.handlers ++ (l1 ++ ext2) := by
        rw [hh2, hl1]
        simp [List.append_assoc]
      have hilt : i < s'.handlers.length := by
        rw [hh, List.length_append]
        omega
      have hgi : s'.handlers[i] = s.handlers.get ⟨i, h⟩ := by
        rw [List.getElem_eq_iff.mpr]
        rw [hh]
        rw [List.getElem?_append_left h]
        simp [List.getElem?_eq_getElem h]
      have hdrop : s'.handlers.drop i
          = s.handlers.get ⟨i, h⟩ :: s'.handlers.drop (i + 1) := by
        rw [List.drop_eq_getElem_cons hilt, hgi]
      refine ⟨⟨l1 ++ ext2, hh⟩, ?_⟩
      rw [htr2, applyCmds_trace, hdrop]
      simp [List.append_assoc]
    · rw [dif_neg h] at hb
      cases hb
      refine ⟨⟨[], by simp⟩, ?_⟩
      rw [List.drop_eq_nil_of_le (by omega)]
      simp

theorem broadcastAux_handlers_static (env : Env) (ev : Ev)
    (henv : ∀ hid e st (c : Cmd), c ∈ env hid e st → ∀ x, c ≠ Cmd.addHandler x) :
    ∀ (fuel i : Nat) (s s' : SysState), broadcastAux env ev fuel i s = some s' →
      s'.handlers = s.handlers := by
  intro fuel
  induction fuel with
  | zero => intro i s s' hb; simp [broadcastAux] at hb
  | succ f ih =>
    intro i s s' hb
    rw [broadcastAux] at hb
    by_cases h : i < s.handlers.length
    · rw [dif_pos h] at hb
      rw [ih (i + 1) _ s' hb,
          applyCmds_handlers_no_add _ _ (fun c hc => henv _ _ _ c hc)]
    · rw [dif_neg h] at hb
      cases hb
      rfl

theorem registerAll_handlers (hs : List Nat) : ∀ s : SysState,
    (registerAll hs s).handlers = s.handlers ++ hs := by
  induction hs with
  | nil => exact fun s => by simp [registerAll]
  | cons h t ih =>
    intro s
    show (registerAll t (EventSystem_addHandler h s)).handlers = _
    rw [ih (EventSystem_addHandler h s)]
    simp [EventSystem_addHandler]

theorem registerAll_trace (hs : List Nat) : ∀ s : SysState,
    (registerAll hs s).trace = s.trace := by
  induction hs with
  | nil => exact fun s => rfl
  | cons h t ih =>
    intro s
    show (registerAll t (EventSystem_addHandler h s)).trace = _
    rw [ih (EventSystem_addHandler h s)]
    rfl

theorem Event_free_plain (ev : Ev) (s : SysState) (h : ev.hasDest = false) :
    Event_free ev s = { s with trace := s.trace ++ [Act.evFree ev.id] } := by
  simp [Event_free, h]

theorem broadcast_env0_single (ev : Ev) (s : SysState) (hs : s.handlers = [0]) :
    broadcastAux env0 ev 2 0 s
      = some { s with trace := s.trace ++ [Act.invoke 0 ev.id ev.type] } := by
  obtain ⟨hl, evq, hp, ne, tr⟩ := s
  simp only at hs
  subst hs
  simp [broadcastAux, applyCmds, env0, List.get]

theorem processEvent_break_eq (env : Env) (bfuel : Nat) (ev : Ev) (running : Bool)
    (s : SysState) (hty : ev.type = BreakLoopEventTypeId) (hdf : ev.hasDest = false) :
    processEvent env bfuel ev running s
      = some ({ s with
          events := s.events ++ [Event_new s.nextEv Option.none ExitEventTypeId EvPayload.none false],
          nextEv := s.nextEv + 1,
          trace := s.trace ++ [Act.evFree ev.id] }, false) := by
  unfold processEvent
  rw [handleEvent_break ev s hty]
  simp only [if_pos rfl]
  rw [Event_free_plain ev _ hdf]
  rfl

theorem processEvent_plain_env0 (ev : Ev) (running : Bool) (s : SysState)
    (hs : s.handlers = [0])
    (h1 : ev.type ≠ BreakLoopEventTypeId) (h2 : ev.type ≠ RemoveHandlerEventTypeId)
    (hdf : ev.hasDest = false) :
    processEvent env0 2 ev running s
      = some ({ s with trace := s.trace ++ [Act.invoke 0 ev.id ev.type, Act.evFree ev.id] },
              running) := by
  unfold processEvent
  rw [handleEvent_other ev s h1 h2]
  have hne : ¬ EventSystemAction.cont = EventSystemAction.exit := by decide
  simp only [if_neg hne]
  rw [broadcast_env0_single ev s hs]
  simp only
  rw [Event_free_plain ev _ hdf]
  simp [List.append_assoc]

theorem cIOT_append (ty : Int) (l m : List Act) :
    countInvokesOfType ty (l ++ m)
      = countInvokesOfType ty l + countInvokesOfType ty m := by
  simp [countInvokesOfType, List.filter_append]

theorem cIOT_exit_pair (eid hid : Nat) :
    countInvokesOfType ExitEventTypeId
        [Act.invoke hid eid ExitEventTypeId, Act.evFree eid] = 1 := by
  simp [countInvokesOfType]

theorem cIOT_evFree (ty : Int) (eid : Nat) :
    countInvokesOfType ty [Act.evFree eid] = 0 := rfl

theorem drain_exits (l : List Ev) : ∀ (fuel : Nat) (running : Bool) (s : SysState),
    s.handlers = [0] → s.events = l →
    (∀ e ∈ l, e.type = ExitEventTypeId ∧ e.payload = EvPayload.none ∧ e.hasDest = false) →
    l.length ≤ fuel →
    ∃ s', drainAux env0 2 fuel running s = some (s', running) ∧
      s'.handlers = [0] ∧ s'.events = [] ∧
      countInvokesOfType ExitEventTypeId s'.trace
        = countInvokesOfType ExitEventTypeId s.trace + l.length := by
  induction l with
  | nil =>
    intro fuel running s h1 h2 _ _
    refine ⟨s, ?_, h1, h2, by simp⟩
    cases fuel with
    | zero => simp [drainAux, h2]
    | succ f => simp only [drainAux, h2]
  | cons e t ih =>
    intro fuel running s h1 h2 hall hlen
    obtain ⟨f, rfl⟩ : ∃ f, fuel = f + 1 := ⟨fuel - 1, by simp at hlen; omega⟩
    obtain ⟨hty, hpl, hdf⟩ := hall e (List.mem_cons_self e t)
    have hne1 : e.type ≠ BreakLoopEventTypeId := by rw [hty]; decide
    have hne2 : e.type ≠ RemoveHandlerEventTypeId := by rw [hty]; decide
    have hpe := processEvent_plain_env0 e running { s with events := t } h1 hne1 hne2 hdf
    obtain ⟨s', hds, hh, hev, hcount⟩ :=
      ih f running
        { s with events := t,
                 trace := s.trace ++ [Act.invoke 0 e.id e.type, Act.evFree e.id] }
        h1 rfl (fun x hx => hall x (List.mem_cons_of_mem e hx)) (by simp at hlen; omega)
    refine ⟨s', ?_, hh, hev, ?_⟩
    · simp only [drainAux, h2]
      rw [hpe]
      exact hds
    · rw [hcount]
      simp only [cIOT_append]
      rw [hty, cIOT_exit_pair]
      simp [List.length_cons]
      omega

theorem drain_breaks (bs : List Ev) : ∀ (l : List Ev) (fuel : Nat) (running : Bool) (s : SysState),
    s.handlers = [0] → s.events = bs ++ l →
    (∀ e ∈ bs, e.type = BreakLoopEventTypeId ∧ e.payload = EvPayload.none ∧ e.hasDest = false) →
    (∀ e ∈ l, e.type = ExitEventTypeId ∧ e.payload = EvPayload.none ∧ e.hasDest = false) →
    2 * bs.length + l.length ≤ fuel →
    ∃ s', drainAux env0 2 fuel running s = some (s', if bs.isEmpty then running else false) ∧
      s'.handlers = [0] ∧ s'.events = [] ∧
      countInvokesOfType ExitEventTypeId s'.trace
        = countInvokesOfType ExitEventTypeId s.trace + bs.length + l.length := by
  induction bs with
  | nil =>
    intro l fuel running s h1 h2 hbs hl hlen
    obtain ⟨s', hds, hh, hev, hcount⟩ :=
      drain_exits l fuel running s h1 (by simpa using h2) hl (by simpa using hlen)
    exact ⟨s', by simpa using hds, hh, hev, by rw [hcount]; simp⟩
  | cons b bs ih =>
    intro l fuel running s h1 h2 hbs hl hlen
    obtain ⟨f, rfl⟩ : ∃ f, fuel = f + 1 := ⟨fuel - 1, by simp at hlen; omega⟩
    obtain ⟨hty, hpl, hdf⟩ := hbs b (List.mem_cons_self b bs)
    have hpe := processEvent_break_eq env0 2 b running { s with events := bs ++ l } hty hdf
    obtain ⟨s', hds, hh, hev, hcount⟩ :=
      ih (l ++ [Event_new s.nextEv Option.none ExitEventTypeId EvPayload.none false])
        f false
        { s with
          events := (bs ++ l) ++ [Event_new s.nextEv Option.none ExitEventTypeId EvPayload.none false],
          nextEv := s.nextEv + 1,
          trace := s.trace ++ [Act.evFree b.id] }
        h1 (by simp [List.append_assoc])
        (fun x hx => hbs x (List.mem_cons_of_mem b hx))
        (fun x hx => by
          rcases List.mem_append.mp hx with hx1 | hx1
          · exact hl x hx1
          · rw [List.mem_singleton.mp hx1]
            exact ⟨rfl, rfl, rfl⟩)
        (by simp at hlen ⊢; omega)
    refine ⟨s', ?_, hh, hev, ?_⟩
    · simp only [drainAux]
      rw [h2]
      simp only [List.cons_append]
      rw [hpe]
      dsimp only
      rw [hds]
      have : (if bs.isEmpty = true then false else false) = false := ite_self false
      rw [this]
      simp
    · rw [hcount]
      simp only [cIOT_append, cIOT_evFree]
      simp [List.length_append, List.length_cons]
      omega

theorem evChunk_mem (ev : Ev) (a : Act) (h : a ∈ evChunk ev) :
    a = Act.evDestructor ev.id ∨ a = Act.evFree ev.id := by
  unfold evChunk at h
  rcases List.mem_append.mp h with h1 | h1
  · left
    by_cases hc : (ev.hasDest && !(ev.payload == EvPayload.none)) = true
    · rw [if_pos hc] at h1
      simpa using h1
    · rw [if_neg hc] at h1
      simp at h1
  · right
    simpa using h1

theorem processEvent_remove (env : Env) (bfuel : Nat) (ev : Ev) (hid : Nat)
    (running running' : Bool) (s s' : SysState)
    (hty : ev.type = RemoveHandlerEventTypeId) (hpl : ev.payload = EvPayload.handlerRef hid)
    (hp : processEvent env bfuel ev running s = some (s', running')) :
    running' = running ∧
    (∃ ext, s'.handlers = s.handlers.erase hid ++ ext) ∧
    countAct (Act.hDecref hid) s'.trace = countAct (Act.hDecref hid) s.trace + 1 ∧
    (∀ h ∈ s.handlers.erase hid, Act.invoke h ev.id ev.type ∈ s'.trace) := by
  unfold processEvent at hp
  rw [handleEvent_remove ev s hid hty hpl] at hp
  dsimp only at hp
  rw [if_neg (by decide : ¬ EventSystemAction.cont = EventSystemAction.exit)] at hp
  cases hbc : broadcastAux env ev bfuel 0
      (EventHandler_decref hid { s with handlers := s.handlers.erase hid }) with
  | none => rw [hbc] at hp; simp at hp
  | some s2 =>
    rw [hbc] at hp
    have hs' : Event_free ev s2 = s' ∧ running = running' := by
      have := Option.some.inj hp
      exact ⟨congrArg Prod.fst this, congrArg Prod.snd this⟩
    obtain ⟨hfree, hrun⟩ := hs'
    obtain ⟨hrh, -, -, d, hrtr, hdcount, hdmem⟩ :=
      decref_effects hid { s with handlers := s.handlers.erase hid }
    obtain ⟨⟨ext, hbh⟩, hbtr⟩ := broadcastAux_spec env ev bfuel 0 _ s2 hbc
    have hrh' : (EventHandler_decref hid { s with handlers := s.handlers.erase hid }).handlers
        = s.handlers.erase hid := hrh
    refine ⟨hrun.symm, ⟨ext, ?_⟩, ?_, ?_⟩
    · rw [← hfree, Event_free_handlers, hbh, hrh']
    · rw [← hfree, Event_free_trace, hbtr, hrtr]
      simp only [countAct_append]
      rw [hdcount]
      have hmap0 : countAct (Act.hDecref hid)
          (List.map (fun h => Act.invoke h ev.id ev.type) (List.drop 0 s2.handlers)) = 0 :=
        countAct_zero _ _ (fun b hb => by
          obtain ⟨x, -, hx⟩ := List.mem_map.mp hb
          rw [← hx]
          simp)
      have hchunk0 : countAct (Act.hDecref hid) (evChunk ev) = 0 :=
        countAct_zero _ _ (fun b hb => by
          rcases evChunk_mem ev b hb with h | h <;> subst h <;> simp)
      rw [hmap0, hchunk0]
    · intro h hmem
      rw [← hfree, Event_free_trace]
      refine List.mem_append.mpr (Or.inl ?_)
      rw [hbtr]
      refine List.mem_append.mpr (Or.inr ?_)
      rw [List.drop_zero]
      refine List.mem_map.mpr ⟨h, ?_, rfl⟩
      rw [hbh, hrh']
      exact List.mem_append.mpr (Or.inl hmem)

theorem evChunk_counts_self (ev : Ev) :
    countAct (Act.evFree ev.id) (evChunk ev) = 1 ∧
    countAct (Act.evDestructor ev.id) (evChunk ev)
      = (if ev.hasDest && !(ev.payload == EvPayload.none) then 1 else 0) := by
  unfold evChunk
  by_cases hc : (ev.hasDest && !(ev.payload == EvPayload.none)) = true <;>
    simp [hc, countAct_append, countAct_cons, countAct_nil]

theorem evChunk_counts_other (ev : Ev) (eid : Nat) (hne : ev.id ≠ eid) :
    countAct (Act.evFree eid) (evChunk ev) = 0 ∧
    countAct (Act.evDestructor eid) (evChunk ev) = 0 := by
  unfold evChunk
  by_cases hc : (ev.hasDest && !(ev.payload == EvPayload.none)) = true <;>
    simp [hc, countAct_append, countAct_cons, countAct_nil, hne]

theorem processEvent_ev_once (env : Env) (bfuel : Nat) (ev : Ev)
    (running running' : Bool) (s s' : SysState)
    (hp : processEvent env bfuel ev running s = some (s', running')) :
    countAct (Act.evFree ev.id) s'.trace = countAct (Act.evFree ev.id) s.trace + 1 ∧
    countAct (Act.evDestructor ev.id) s'.trace
      = countAct (Act.evDestructor ev.id) s.trace
        + (if ev.hasDest && !(ev.payload == EvPayload.none) then 1 else 0) := by
  unfold processEvent at hp
  obtain ⟨hcf, hcd⟩ := handleEvent_ev_counts ev s ev.id
  cases hhe : EventSystem_handleEvent ev s with
  | mk a s1 =>
    rw [hhe] at hp hcf hcd
    dsimp only at hp hcf hcd
    by_cases ha : a = EventSystemAction.exit
    · rw [if_pos ha] at hp
      have hs' : Event_free ev (EventSystem_emitNew ExitEventTypeId EvPayload.none false s1) = s' :=
        congrArg Prod.fst (Option.some.inj hp)
      rw [← hs', Event_free_trace, emitNew_trace]
      obtain ⟨hf1, hd1⟩ := evChunk_counts_self ev
      rw [countAct_append, countAct_append, hf1, hd1, hcf, hcd]
      exact ⟨rfl, rfl⟩
    · rw [if_neg ha] at hp
      cases hbc : broadcastAux env ev bfuel 0 s1 with
      | none => rw [hbc] at hp; simp at hp
      | some s2 =>
        rw [hbc] at hp
        have hs' : Event_free ev s2 = s' := congrArg Prod.fst (Option.some.inj hp)
        obtain ⟨-, hbtr⟩ := broadcastAux_spec env ev bfuel 0 s1 s2 hbc
        have hmapf : countAct (Act.evFree ev.id)
            (List.map (fun h => Act.invoke h ev.id ev.type) (List.drop 0 s2.handlers)) = 0 :=
          countAct_zero _ _ (fun b hb => by
            obtain ⟨x, -, hx⟩ := List.mem_map.mp hb
            rw [← hx]
            simp)
        have hmapd : countAct (Act.evDestructor ev.id)
            (List.map (fun h => Act.invoke h ev.id ev.type) (List.drop 0 s2.handlers)) = 0 :=
          countAct_zero _ _ (fun b hb => by
            obtain ⟨x, -, hx⟩ := List.mem_map.mp hb
            rw [← hx]
            simp)
        obtain ⟨hf1, hd1⟩ := evChunk_counts_self ev
        rw [← hs', Event_free_trace, hbtr]
        rw [countAct_append, countAct_append, countAct_append, countAct_append,
            hf1, hd1, hcf, hcd, hmapf, hmapd]
        constructor <;> omega

theorem freeFold_trace : ∀ (l : List Ev) (acc : SysState),
    (l.foldl (fun a e => Event_free e a) acc).trace = acc.trace ++ l.flatMap evChunk := by
  intro l
  induction l with
  | nil => intro acc; simp
  | cons e t ih =>
    intro acc
    show (t.foldl (fun a e => Event_free e a) (Event_free e acc)).trace = _
    rw [ih (Event_free e acc), Event_free_trace]
    simp [List.append_assoc]

theorem freeFold_handlers : ∀ (l : List Ev) (acc : SysState),
    (l.foldl (fun a e => Event_free e a) acc).handlers = acc.handlers := by
  intro l
  induction l with
  | nil => intro acc; rfl
  | cons e t ih =>
    intro acc
    show (t.foldl (fun a e => Event_free e a) (Event_free e acc)).handlers = _
    rw [ih (Event_free e acc), Event_free_handlers]

theorem decrefFold_ev_counts : ∀ (hs : List Nat) (acc : SysState) (eid : Nat),
    countAct (Act.evFree eid) ((hs.foldl (fun a h => EventHandler_decref h a) acc)).trace
      = countAct (Act.evFree eid) acc.trace ∧
    countAct (Act.evDestructor eid) ((hs.foldl (fun a h => EventHandler_decref h a) acc)).trace
      = countAct (Act.evDestructor eid) acc.trace := by
  intro hs
  induction hs with
  | nil => intro acc eid; exact ⟨rfl, rfl⟩
  | cons h t ih =>
    intro acc eid
    obtain ⟨ihf, ihd⟩ := ih (EventHandler_decref h acc) eid
    obtain ⟨-, -, -, d, htr, -, hmem⟩ := decref_effects h acc
    have hdf : countAct (Act.evFree eid) d = 0 :=
      countAct_zero _ _ (fun b hb => by
        rcases hmem b hb with hx | hx | hx <;> subst hx <;> simp)
    have hdd : countAct (Act.evDestructor eid) d = 0 :=
      countAct_zero _ _ (fun b hb => by
        rcases hmem b hb with hx | hx | hx <;> subst hx <;> simp)
    constructor
    · show countAct _ ((t.foldl (fun a h => EventHandler_decref h a) (EventHandler_decref h acc))).trace = _
      rw [ihf, htr, countAct_append, hdf]
      omega
    · show countAct _ ((t.foldl (fun a h => EventHandler_decref h a) (EventHandler_decref h acc))).trace = _
      rw [ihd, htr, countAct_append, hdd]
      omega


theorem flatMap_counts_zero (l : List Ev) (eid : Nat) (h : ∀ e ∈ l, e.id ≠ eid) :
    countAct (Act.evFree eid) (l.flatMap evChunk) = 0 ∧
    countAct (Act.evDestructor eid) (l.flatMap evChunk) = 0 := by
  constructor <;>
    exact countAct_zero _ _ (fun b hb => by
      obtain ⟨e, he, hbe⟩ := List.mem_flatMap.mp hb
      rcases evChunk_mem e b hbe with hx | hx <;> subst hx <;> simp [h e he])

theorem flatMap_counts (l : List Ev) : ∀ (ev : Ev), ev ∈ l → (l.map Ev.id).Nodup →
    countAct (Act.evFree ev.id) (l.flatMap evChunk) = 1 ∧
    countAct (Act.evDestructor ev.id) (l.flatMap evChunk)
      = (if ev.hasDest && !(ev.payload == EvPayload.none) then 1 else 0) := by
  induction l with
  | nil => intro ev hmem; simp at hmem
  | cons e t ih =>
    intro ev hmem hnd
    obtain ⟨hnotin, hnd'⟩ : (∀ x ∈ t, ¬ x.id = e.id) ∧ (t.map Ev.id).Nodup := by simpa using hnd
    rw [List.flatMap_cons]
    rcases List.mem_cons.mp hmem with heq | hmem'
    · subst heq
      obtain ⟨hf1, hd1⟩ := evChunk_counts_self ev
      obtain ⟨hf0, hd0⟩ := flatMap_counts_zero t ev.id (fun x hx => hnotin x hx)
      rw [countAct_append, countAct_append, hf1, hd1, hf0, hd0]
      constructor <;> omega
    · have hne : e.id ≠ ev.id := fun hxe => hnotin ev hmem' hxe.symm
      obtain ⟨hf0, hd0⟩ := evChunk_counts_other e ev.id hne
      obtain ⟨hf1, hd1⟩ := ih ev hmem' hnd'
      rw [countAct_append, countAct_append, hf0, hd0, hf1, hd1]
      constructor <;> omega

theorem heapGet_singleton (h : Nat) (r : HRec) : heapGet [(h, r)] h = some r := by
  simp [heapGet, List.find?]

theorem heapSet_singleton (h : Nat) (r r' : HRec) : heapSet [(h, r)] h r' = [(h, r')] := by
  simp [heapSet]

theorem heapErase_singleton (h : Nat) (r : HRec) : heapErase [(h, r)] h = [] := by
  simp [heapErase]

theorem EventHandler_incref_singleton (h : Nat) (c : Int) (d t : Bool) (tr : List Act) :
    EventHandler_incref h
        { handlers := [], events := [], heap := [(h, ⟨c, d, t⟩)], nextEv := 0, trace := tr }
      = { handlers := [], events := [], heap := [(h, ⟨c + 1, d, t⟩)], nextEv := 0, trace := tr } := by
  unfold EventHandler_incref
  rw [show heapGet [(h, (⟨c, d, t⟩ : HRec))] h = some ⟨c, d, t⟩ from heapGet_singleton h _]
  simp [heapSet_singleton]

theorem EventHandler_decref_singleton_live (h : Nat) (c : Int) (d t : Bool) (tr : List Act)
    (hc : ¬ c - 1 = 0) :
    EventHandler_decref h
        { handlers := [], events := [], heap := [(h, ⟨c, d, t⟩)], nextEv := 0, trace := tr }
      = { handlers := [], events := [], heap := [(h, ⟨c - 1, d, t⟩)], nextEv := 0,
          trace := tr ++ [Act.hDecref h] } := by
  rw [EventHandler_decref_eq_live h _ ⟨c, d, t⟩ (heapGet_singleton h _) hc]
  simp [heapSet_singleton]

theorem EventHandler_decref_singleton_free (h : Nat) (c : Int) (d t : Bool) (tr : List Act)
    (hc : c - 1 = 0) :
    EventHandler_decref h
        { handlers := [], events := [], heap := [(h, ⟨c, d, t⟩)], nextEv := 0, trace := tr }
      = { handlers := [], events := [], heap := [], nextEv := 0,
          trace := tr ++ [Act.hDecref h]
            ++ (if t && d then [Act.hDestructor h] else []) ++ [Act.hFree h] } := by
  rw [EventHandler_decref_eq_free h _ ⟨c, d, t⟩ (heapGet_singleton h _) hc]
  simp [heapErase_singleton]

theorem increfIter_singleton (h : Nat) : ∀ (k : Nat) (c : Int) (d t : Bool) (tr : List Act),
    increfIter h k { handlers := [], events := [], heap := [(h, ⟨c, d, t⟩)], nextEv := 0, trace := tr }
      = { handlers := [], events := [], heap := [(h, ⟨c + k, d, t⟩)], nextEv := 0, trace := tr } := by
  intro k
  induction k with
  | zero => intro c d t tr; simp [increfIter]
  | succ k ih =>
    intro c d t tr
    show increfIter h k (EventHandler_incref h _) = _
    rw [EventHandler_incref_singleton, ih (c + 1) d t tr]
    have : c + 1 + (k : Int) = c + ((k : Nat) + 1 : Nat) := by push_cast; ring
    rw [this]

theorem decrefIter_runs (h : Nat) : ∀ (k c : Nat), k < c → ∀ (d t : Bool) (tr : List Act),
    decrefIter h k
        { handlers := [], events := [], heap := [(h, ⟨(c : Int), d, t⟩)], nextEv := 0, trace := tr }
      = { handlers := [], events := [], heap := [(h, ⟨((c - k : Nat) : Int), d, t⟩)], nextEv := 0,
          trace := tr ++ List.replicate k (Act.hDecref h) } := by
  intro k
  induction k with
  | zero => intro c _ d t tr; simp [decrefIter]
  | succ k ih =>
    intro c hk d t tr
    show decrefIter h k (EventHandler_decref h _) = _
    rw [EventHandler_decref_singleton_live h _ d t tr (by omega)]
    rw [show ((c : Int) - 1) = ((c - 1 : Nat) : Int) by omega]
    rw [ih (c - 1) (by omega) d t (tr ++ [Act.hDecref h])]
    rw [show ((c - 1 - k : Nat) : Int) = ((c - (k + 1) : Nat) : Int) by omega]
    rw [List.replicate_succ, List.append_assoc]
    rfl

theorem decrefIter_full (h : Nat) : ∀ (c : Nat), 1 ≤ c → ∀ (d t : Bool) (tr : List Act),
    decrefIter h c
        { handlers := [], events := [], heap := [(h, ⟨(c : Int), d, t⟩)], nextEv := 0, trace := tr }
      = { handlers := [], events := [], heap := [], nextEv := 0,
          trace := tr ++ List.replicate (c - 1) (Act.hDecref h) ++ [Act.hDecref h]
            ++ (if t && d then [Act.hDestructor h] else []) ++ [Act.hFree h] } := by
  intro c
  induction c with
  | zero => intro hc; omega
  | succ c ih =>
    intro _ d t tr
    show decrefIter h c (EventHandler_decref h _) = _
    by_cases hc : c = 0
    · subst hc
      rw [EventHandler_decref_singleton_free h _ d t tr (by norm_num)]
      simp [decrefIter]
    · rw [EventHandler_decref_singleton_live h _ d t tr (by omega)]
      rw [show (((c + 1 : Nat) : Int) - 1) = ((c : Nat) : Int) by push_cast; ring]
      rw [ih (by omega) d t (tr ++ [Act.hDecref h])]
      obtain ⟨m, rfl⟩ : ∃ m, c = m + 1 := ⟨c - 1, by omega⟩
      have hrep : List.replicate (m + 1 + 1 - 1) (Act.hDecref h)
          = Act.hDecref h :: List.replicate (m + 1 - 1) (Act.hDecref h) := by
        simp [List.replicate_succ]
      rw [hrep]
      simp [List.append_assoc]

/- Claim theorems. -/

/-- C1, counterexample.  The claim says a remove-handler control event is
never broadcast to user handlers.  In the code, `EventSystem_handleEvent`
returns the continue action for remove-handler events (only break-loop
yields the exit action), so the drain's else-branch broadcasts them: here
the registered user handler 5 IS invoked with the remove-handler event
(type tag `RemoveHandlerEventTypeId`) that carries handler 7. -/
theorem c1_counterexample :
    processEvent env0 2 c1Ev true c1S = some (c1Res, true) ∧
    Act.invoke 5 0 RemoveHandlerEventTypeId ∈ c1Res.trace := by
  constructor
  · decide
  · decide

/-- C1, amended.  A remove-handler event IS intercepted for internal
handling when dequeued — the carried handler is erased from the sequence
and one reference is released — but the event is then ALSO broadcast to the
handlers that remain after the removal (it is not consumed silently). -/
theorem c1_amended (env : Env) (bfuel : Nat) (ev : Ev) (hid : Nat)
    (running running' : Bool) (s s' : SysState)
    (hty : ev.type = RemoveHandlerEventTypeId)
    (hpl : ev.payload = EvPayload.handlerRef hid)
    (hp : processEvent env bfuel ev running s = some (s', running')) :
    (∃ ext, s'.handlers = s.handlers.erase hid ++ ext) ∧
    countAct (Act.hDecref hid) s'.trace = countAct (Act.hDecref hid) s.trace + 1 ∧
    ∀ h ∈ s.handlers.erase hid, Act.invoke h ev.id ev.type ∈ s'.trace := by
  obtain ⟨-, h1, h2, h3⟩ := processEvent_remove env bfuel ev hid running running' s s' hty hpl hp
  exact ⟨h1, h2, h3⟩

/-- C1, witness for the amended theorem at a concrete input. -/
theorem c1_amended_witness : Act.invoke 5 0 RemoveHandlerEventTypeId ∈ c1Res.trace := by
  have h := c1_amended env0 2 c1Ev 7 true true c1S c1Res rfl rfl (by decide)
  exact h.2.2 5 (by decide)

/-- C2, counterexample.  The claim says a second removeHandler request for
the same handler is a no-op that releases no reference.  Here handler 0 has
reference count 2 and two remove-handler events are drained: the second
one's processing removes nothing from the (already empty) sequence but
still releases a reference — the trace shows two releases and the record
being freed. -/
theorem c2_counterexample :
    drainAux env0 1 3 true c2S = some (c2Res, true) ∧
    countAct (Act.hDecref 0) c2Res.trace = 2 ∧
    Act.hFree 0 ∈ c2Res.trace := by
  refine ⟨by decide, by decide, by decide⟩

/-- C2, amended.  removeHandler(h) removes nothing immediately — it only
appends a remove-handler event to the queue; when that event is processed,
h's first occurrence is erased from the sequence and exactly one reference
is released, UNCONDITIONALLY: a second request's processing finds h absent
and erases nothing, but still releases one further reference. -/
theorem c2_amended :
    (∀ (hid : Nat) (s : SysState),
        (EventSystem_removeHandler hid s).handlers = s.handlers ∧
        (EventSystem_removeHandler hid s).events
          = s.events ++ [Event_new s.nextEv Option.none RemoveHandlerEventTypeId
              (EvPayload.handlerRef hid) false]) ∧
    (∀ (env : Env) (bfuel : Nat) (ev : Ev) (hid : Nat) (running running' : Bool) (s s' : SysState),
        ev.type = RemoveHandlerEventTypeId → ev.payload = EvPayload.handlerRef hid →
        processEvent env bfuel ev running s = some (s', running') →
        (∃ ext, s'.handlers = s.handlers.erase hid ++ ext) ∧
        countAct (Act.hDecref hid) s'.trace = countAct (Act.hDecref hid) s.trace + 1 ∧
        (hid ∉ s.handlers → ∃ ext, s'.handlers = s.handlers ++ ext)) := by
  constructor
  · intro hid s
    exact ⟨rfl, rfl⟩
  · intro env bfuel ev hid running running' s s' hty hpl hp
    obtain ⟨-, h1, h2, -⟩ := processEvent_remove env bfuel ev hid running running' s s' hty hpl hp
    refine ⟨h1, h2, ?_⟩
    intro hnm
    obtain ⟨ext, hext⟩ := h1
    exact ⟨ext, by rwa [List.erase_of_not_mem hnm] at hext⟩

/-- C2, witness for the amended theorem: the deferred enqueue leaves the
sequence untouched, and processing the second request (handler 0 already
absent) still releases exactly one reference. -/
theorem c2_amended_witness :
    (EventSystem_removeHandler 0 c2S).handlers = c2S.handlers ∧
    countAct (Act.hDecref 0) c2MidRes.trace = 1 := by
  have h1 := (c2_amended.1 0 c2S).1
  have h2 := (c2_amended.2 env0 1 c2MidEv 0 true true c2Mid c2MidRes rfl rfl (by decide)).2.1
  refine ⟨h1, ?_⟩
  simpa [c2Mid, countAct_nil] using h2

/-- C3: every event processed by the drain loop (whether broadcast or
internally consumed) has its payload destructor invoked exactly once
(when both data and destructor are non-null) and its record freed exactly
once; and every event still pending at cleanup is likewise destroyed
exactly once. -/
theorem c3_destructor_once :
    (∀ (env : Env) (bfuel : Nat) (ev : Ev) (running running' : Bool) (s s' : SysState),
        processEvent env bfuel ev running s = some (s', running') →
        countAct (Act.evFree ev.id) s'.trace = countAct (Act.evFree ev.id) s.trace + 1 ∧
        countAct (Act.evDestructor ev.id) s'.trace
          = countAct (Act.evDestructor ev.id) s.trace
            + (if ev.hasDest && !(ev.payload == EvPayload.none) then 1 else 0)) ∧
    (∀ (s : SysState) (ev : Ev), ev ∈ s.events → (s.events.map Ev.id).Nodup →
        countAct (Act.evFree ev.id) (EventSystem_cleanup s).trace
          = countAct (Act.evFree ev.id) s.trace + 1 ∧
        countAct (Act.evDestructor ev.id) (EventSystem_cleanup s).trace
          = countAct (Act.evDestructor ev.id) s.trace
            + (if ev.hasDest && !(ev.payload == EvPayload.none) then 1 else 0)) := by
  constructor
  · exact fun env bfuel ev running running' s s' hp =>
      processEvent_ev_once env bfuel ev running running' s s' hp
  · intro s ev hmem hnd
    have hclean : (EventSystem_cleanup s).trace
        = ((s.events.foldl (fun acc ev => Event_free ev acc) { s with events := [] }).handlers.foldl
            (fun acc hid => EventHandler_decref hid acc)
            (s.events.foldl (fun acc ev => Event_free ev acc) { s with events := [] })).trace := rfl
    obtain ⟨h2f, h2d⟩ := decrefFold_ev_counts
      ((s.events.foldl (fun acc ev => Event_free ev acc) { s with events := [] }).handlers)
      (s.events.foldl (fun acc ev => Event_free ev acc) { s with events := [] }) ev.id
    have h1 : (s.events.foldl (fun acc ev => Event_free ev acc) { s with events := [] }).trace
        = s.trace ++ s.events.flatMap evChunk :=
      freeFold_trace s.events { s with events := [] }
    obtain ⟨h3f, h3d⟩ := flatMap_counts s.events ev hmem hnd
    constructor
    · rw [hclean, h2f, h1, countAct_append, h3f]
    · rw [hclean, h2d, h1, countAct_append, h3d]

/-- C3, witness: a user event with non-null data and destructor, processed
once by the drain (destructor and free both happen exactly once), and the
same event drained undispatched by cleanup (likewise exactly once). -/
theorem c3_destructor_once_witness :
    countAct (Act.evFree 0) c3Res.trace = 1 ∧
    countAct (Act.evDestructor 0) c3Res.trace = 1 ∧
    countAct (Act.evFree 0) (EventSystem_cleanup c3CleanS).trace = 1 ∧
    countAct (Act.evDestructor 0) (EventSystem_cleanup c3CleanS).trace = 1 := by
  have hA := c3_destructor_once.1 env0 1 c3Ev true true c3S c3Res (by decide)
  have hB := c3_destructor_once.2 c3CleanS c3Ev (by decide) (by decide)
  refine ⟨?_, ?_, ?_, ?_⟩
  · simpa [c3S, c3Ev, Event_new, countAct_nil] using hA.1
  · simpa [c3S, c3Ev, Event_new, countAct_nil] using hA.2
  · simpa [c3CleanS, c3Ev, Event_new, countAct_nil] using hB.1
  · simpa [c3CleanS, c3Ev, Event_new, countAct_nil] using hB.2

/-- C4: with exactly one handler registered (id 0) and EventSystem_exit
called before EventSystem_loop starts, the loop invokes the handler exactly
three times — one Start, one Update, one Exit, in that order — and then
returns (the running flag is cleared in the very first drain, because the
break-loop event sits ahead of the start and first update events). -/
theorem c4_exit_before_loop :
    (EventSystem_loop env0 (fun _ => 0) 3 10 2 (EventSystem_exit c4Start)).map
        (fun ls => (invokesOf ls.sys.trace, ls.running))
      = some ([(0, StartEventTypeId), (0, UpdateEventTypeId), (0, ExitEventTypeId)], false) := by
  decide

/-- C5, counterexample.  The claim says the per-frame budget is 1000/30 ms
(about 33.3 ms) and the requested sleep is exactly that budget minus the
processing time (about 23.3 ms for a 10 ms frame).  The code computes the
budget with C integer division (`1000 / FPS` with both operands int), so
the budget is exactly 33 ms and the requested sleep for a 10 ms frame is
exactly 23 ms, not 1000/30 − 10. -/
theorem c5_counterexample :
    framePace 10 = some 23 ∧
    ¬ framePace 10 = some ((1000 : ℚ) / 30 - 10) ∧
    framePace 40 = Option.none := by
  have h30 : (1000 / 30 : Int) = 33 := by decide
  have hm : millisPerFrame = 33 := by
    unfold millisPerFrame FPS
    rw [h30]
    norm_num
  refine ⟨?_, ?_, ?_⟩
  · unfold framePace
    rw [hm]
    norm_num
  · unfold framePace
    rw [hm]
    norm_num
  · unfold framePace
    rw [hm]
    norm_num

/-- C5, amended.  The per-frame budget is exactly 33 ms (1000/30 in C
integer arithmetic); a frame measured at t ms requests a sleep of exactly
33 − t ms when t < 33 and no sleep otherwise (so a 40 ms frame requests
none). -/
theorem c5_amended :
    millisPerFrame = 33 ∧
    ∀ t : ℚ, framePace t = if t < 33 then some (33 - t) else Option.none := by
  have h30 : (1000 / 30 : Int) = 33 := by decide
  have hm : millisPerFrame = 33 := by
    unfold millisPerFrame FPS
    rw [h30]
    norm_num
  exact ⟨hm, fun t => by unfold framePace; rw [hm]⟩

/-- C6: EventSystem_emit and EventSystem_raiseEvent denote the identical
operation — both enqueue the event at the tail of the pending queue and
leave the rest of the state unchanged. -/
theorem c6_emit_raiseEvent_equal :
    ∀ (ev : Ev) (s : SysState),
      EventSystem_raiseEvent ev s = EventSystem_emit ev s ∧
      (EventSystem_emit ev s).events = s.events ++ [ev] ∧
      (EventSystem_emit ev s).handlers = s.handlers ∧
      (EventSystem_emit ev s).heap = s.heap ∧
      (EventSystem_emit ev s).trace = s.trace :=
  fun _ _ => ⟨rfl, rfl, rfl, rfl, rfl⟩

/-- C7: a handler created with refcount 1 (via EventHandler_new, whose
fatal assert rules out data without destructor) and retained to refcount N:
releasing it fewer than N times triggers neither the payload destructor nor
the deallocation and leaves the record live with count N − k; the Nth
release triggers exactly one payload destructor call (when a payload is
present) and exactly one deallocation. -/
theorem c7_release_refcount (hasData hasDest : Bool) (rec : HRec)
    (hnew : EventHandler_new hasData hasDest = some rec)
    (h N k : Nat) (hN : 1 ≤ N) :
    (k < N →
        countAct (Act.hFree h) (decrefIter h k (increfIter h (N - 1)
          { handlers := [], events := [], heap := [(h, rec)], nextEv := 0, trace := [] })).trace = 0 ∧
        countAct (Act.hDestructor h) (decrefIter h k (increfIter h (N - 1)
          { handlers := [], events := [], heap := [(h, rec)], nextEv := 0, trace := [] })).trace = 0 ∧
        (decrefIter h k (increfIter h (N - 1)
          { handlers := [], events := [], heap := [(h, rec)], nextEv := 0, trace := [] })).heap
          = [(h, ⟨(N : Int) - (k : Int), hasData, hasDest⟩)]) ∧
    (k = N →
        countAct (Act.hFree h) (decrefIter h k (increfIter h (N - 1)
          { handlers := [], events := [], heap := [(h, rec)], nextEv := 0, trace := [] })).trace = 1 ∧
        countAct (Act.hDestructor h) (decrefIter h k (increfIter h (N - 1)
          { handlers := [], events := [], heap := [(h, rec)], nextEv := 0, trace := [] })).trace
          = (if hasData then 1 else 0) ∧
        (decrefIter h k (increfIter h (N - 1)
          { handlers := [], events := [], heap := [(h, rec)], nextEv := 0, trace := [] })).heap
          = []) := by
  have hrec : rec = ⟨1, hasData, hasDest⟩ ∧ (hasData = true → hasDest = true) := by
    unfold EventHandler_new at hnew
    cases hasData <;> cases hasDest <;> simp at hnew <;> simp [hnew.symm]
  obtain ⟨hr, himp⟩ := hrec
  subst hr
  have hinc : increfIter h (N - 1)
      { handlers := [], events := [], heap := [(h, ⟨1, hasData, hasDest⟩)], nextEv := 0, trace := [] }
      = { handlers := [], events := [],
          heap := [(h, ⟨(N : Int), hasData, hasDest⟩)], nextEv := 0, trace := [] } := by
    rw [increfIter_singleton h (N - 1) 1 hasData hasDest []]
    have : (1 : Int) + ((N - 1 : Nat) : Int) = (N : Int) := by omega
    rw [this]
  rw [hinc]
  constructor
  · intro hk
    rw [decrefIter_runs h k N hk hasData hasDest []]
    have hrep0 : ∀ a : Act, a ≠ Act.hDecref h →
        countAct a (List.replicate k (Act.hDecref h)) = 0 := fun a ha =>
      countAct_zero a _ (fun b hb => by rw [List.eq_of_mem_replicate hb]; exact fun hc => ha hc.symm)
    refine ⟨?_, ?_, ?_⟩
    · simpa using hrep0 (Act.hFree h) (by simp)
    · simpa using hrep0 (Act.hDestructor h) (by simp)
    · rw [show ((N - k : Nat) : Int) = (N : Int) - (k : Int) by omega]
  · intro hk
    subst hk
    rw [decrefIter_full h k hN hasData hasDest []]
    have hrep0 : ∀ a : Act, a ≠ Act.hDecref h →
        countAct a (List.replicate (k - 1) (Act.hDecref h)) = 0 := fun a ha =>
      countAct_zero a _ (fun b hb => by rw [List.eq_of_mem_replicate hb]; exact fun hc => ha hc.symm)
    refine ⟨?_, ?_, rfl⟩
    · rw [List.nil_append, countAct_append, countAct_append, countAct_append]
      rw [hrep0 (Act.hFree h) (by simp)]
      have hite : countAct (Act.hFree h)
          (if hasDest && hasData then [Act.hDestructor h] else []) = 0 := by
        by_cases hc : (hasDest && hasData) = true <;>
          simp [hc, countAct_cons, countAct_nil]
      rw [hite]
      simp [countAct_cons, countAct_nil]
    · rw [List.nil_append, countAct_append, countAct_append, countAct_append]
      rw [hrep0 (Act.hDestructor h) (by simp)]
      cases hd : hasData
      · have : (hasDest && false) = false := by simp
        rw [hd] at *
        simp [countAct_cons, countAct_nil]
      · have hdt : hasDest = true := himp hd
        rw [hdt]
        simp [countAct_cons, countAct_nil]

/-- C7, witness: a handler with payload, refcount brought from 1 to 2 by
one retain, then released twice — exactly one deallocation. -/
theorem c7_release_refcount_witness :
    countAct (Act.hFree 0) (decrefIter 0 2 (increfIter 0 1
      { handlers := [], events := [], heap := [(0, ⟨1, true, true⟩)], nextEv := 0,
        trace := [] })).trace = 1 := by
  have h := c7_release_refcount true true ⟨1, true, true⟩ rfl 0 2 2 (by norm_num)
  exact (h.2 rfl).1

/-- C8: handlers registered by a sequence of addHandler calls are invoked
for a broadcast event exactly in registration order (provided no callback
registers further handlers during that broadcast). -/
theorem c8_dispatch_order (hs : List Nat) (env : Env)
    (henv : ∀ (hid : Nat) (e : Ev) (st : SysState) (c : Cmd),
      c ∈ env hid e st → ∀ x, c ≠ Cmd.addHandler x)
    (ev : Ev) (bfuel : Nat) (s s' : SysState) (hs0 : s.handlers = [])
    (hb : broadcastAux env ev bfuel 0 (registerAll hs s) = some s') :
    s'.trace = s.trace ++ hs.map (fun h => Act.invoke h ev.id ev.type) := by
  obtain ⟨-, htr⟩ := broadcastAux_spec env ev bfuel 0 (registerAll hs s) s' hb
  have hh : s'.handlers = hs := by
    rw [broadcastAux_handlers_static env ev henv bfuel 0 _ s' hb,
        registerAll_handlers hs s, hs0]
    simp
  rw [htr, hh, List.drop_zero, registerAll_trace]

/-- C8, witness: handlers 1 then 2 registered, a user event broadcast — the
invocation trace is exactly [1 then 2]. -/
theorem c8_dispatch_order_witness :
    c8Res.trace = [Act.invoke 1 9 7, Act.invoke 2 9 7] := by
  have h := c8_dispatch_order [1, 2] env0
    (fun hid e st c hc _ => by simp [env0] at hc)
    c8Ev 3 EventSystem_init c8Res rfl (by decide)
  simpa [EventSystem_init, c8Ev, Event_new] using h

/-- C9: the broadcast cursor walks the live handler sequence re-reading its
length each step, so when the broadcast completes, the handlers invoked
(in order) are exactly the FINAL handler sequence — in particular every
handler appended by a callback during the broadcast (present in the final
sequence) is invoked with that same event in that very broadcast. -/
theorem c9_live_cursor (env : Env) (ev : Ev) (bfuel : Nat) (s s' : SysState)
    (hb : broadcastAux env ev bfuel 0 s = some s') :
    (∃ ext, s'.handlers = s.handlers ++ ext) ∧
    s'.trace = s.trace ++ s'.handlers.map (fun h => Act.invoke h ev.id ev.type) ∧
    ∀ h ∈ s'.handlers, Act.invoke h ev.id ev.type ∈ s'.trace := by
  obtain ⟨hext, htr⟩ := broadcastAux_spec env ev bfuel 0 s s' hb
  rw [List.drop_zero] at htr
  refine ⟨hext, htr, fun h hm => ?_⟩
  rw [htr]
  exact List.mem_append.mpr (Or.inr (List.mem_map_of_mem _ hm))

/-- C9, witness: handlers [1, 2] registered; handler 1's callback appends
handler 9 mid-broadcast; handler 9 (absent at broadcast start) is invoked
with the same event in the same broadcast. -/
theorem c9_live_cursor_witness : Act.invoke 9 7 9 ∈ c9Res.trace := by
  have h := c9_live_cursor env1 c9Ev 4 c9S c9Res (by decide)
  exact h.2.2 9 (by decide)

/-- C10: draining a queue holding k+1 break-loop control events (k+1 calls
to exit() before the drain) enqueues one exit event per break-loop event —
even for those processed when the loop is already stopping — so the single
registered handler is broadcast exactly k+1 Exit events, and the drain ends
with the running flag cleared. -/
theorem c10_exit_per_break (k : Nat) :
    ∃ s', drainAux env0 2 (2 * (k + 1)) true (breakQueueState (k + 1)) = some (s', false) ∧
      countInvokesOfType ExitEventTypeId s'.trace = k + 1 := by
  obtain ⟨s', hds, -, -, hcount⟩ :=
    drain_breaks
      ((List.range (k + 1)).map
        (fun i => Event_new i Option.none BreakLoopEventTypeId EvPayload.none false))
      [] (2 * (k + 1)) true (breakQueueState (k + 1))
      rfl (by simp [breakQueueState])
      (fun e he => by
        obtain ⟨i, -, hi⟩ := List.mem_map.mp he
        rw [← hi]
        exact ⟨rfl, rfl, rfl⟩)
      (fun e he => by simp at he)
      (by simp)
  have hne : ((List.range (k + 1)).map
      (fun i => Event_new i Option.none BreakLoopEventTypeId EvPayload.none false)).isEmpty
      = false := by
    simp [List.isEmpty_iff]
  rw [hne] at hds
  refine ⟨s', by simpa using hds, ?_⟩
  rw [hcount]
  have h0 : countInvokesOfType ExitEventTypeId (breakQueueState (k + 1)).trace = 0 := rfl
  rw [h0]
  simp
